import Mathlib

set_option maxRecDepth 8192

/-!
Formal model of the mcp-this compilation and execution engine: the
command-template substitution language (`<<name>>` placeholders), the
prompt-template renderer (`{{name}}` variables and `{{#if name}}` blocks),
the process-result formatter, the descriptor validator, and the registry
description builder.  The Python implementation files (tools.py,
mcp_server.py) are not present in the repository snapshot, so the engine
definitions are modelled from the specification and from behaviour recorded
in the repository's notebooks and playbook.
-/

/-- Characters of the `<<name>>` placeholder token used in command templates. -/
def ctok (n : String) : List Char := '<' :: '<' :: (n.data ++ ['>', '>'])

/-- Characters of the `{{name}}` variable token used in prompt templates. -/
def vtok (n : String) : List Char := '\x7b' :: '\x7b' :: (n.data ++ ['\x7d', '\x7d'])

/-- Fuel-indexed literal find-and-replace over character lists.  It mirrors a
single left-to-right pass of a literal string replace: at each position, if
the pattern matches, the replacement is emitted and scanning continues after
the matched text (the replacement is never rescanned by this same pass);
otherwise the character is emitted and scanning moves one character right. -/
def replaceAllAux (pat rep : List Char) : Nat → List Char → List Char
  | _, [] => []
  | 0, s => s
  | fuel + 1, c :: rest =>
    if pat.isPrefixOf (c :: rest) then
      rep ++ replaceAllAux pat rep fuel ((c :: rest).drop pat.length)
    else
      c :: replaceAllAux pat rep fuel rest

/-- Literal find-and-replace of every occurrence of `pat` by `rep` in `s`,
scanning left to right and never rescanning emitted replacement text within
the same pass. -/
def replaceAll (pat rep s : List Char) : List Char :=
  replaceAllAux pat rep s.length s

/-- Boolean cleanliness of a character list: no angle-bracket characters.
Clean text can neither start nor complete a `<<name>>` token. -/
def cleanB (l : List Char) : Bool := l.all (fun c => !(c == '<') && !(c == '>'))

/-- Parameter metadata: description, requiredness flag, and optional default
value, as declared in the YAML configuration. -/
structure ParamSpec where
  description : String
  required : Bool
  default : Option String
deriving DecidableEq

/-- Invocation-time errors of the template engine. -/
inductive SubstError where
  | missingRequired (name : String)
  | unknownParameter (name : String)
deriving DecidableEq

/-- Lookup in an association list keyed by strings. -/
def lookupStr {α : Type} (m : List (String × α)) (k : String) : Option α :=
  (m.find? (fun q => q.1 == k)).map Prod.snd

/-- Modelled from the spec: the effective value of a parameter (algorithm
step 1 of the command template engine, whose implementation file tools.py is
not in the snapshot) — the caller-provided value if present, else the
declared default, else absent. -/
def effectiveValue (provided : List (String × String)) (n : String)
    (sp : ParamSpec) : Option String :=
  match lookupStr provided n with
  | some v => some v
  | none => sp.default

/-- One substitution pass per declared parameter, in declaration order: a
present effective value replaces every literal occurrence of the token, an
absent one elides the token (replacement by the empty string). -/
def applyPasses (provided : List (String × String))
    (specs : List (String × ParamSpec)) (s : List Char) : List Char :=
  specs.foldl
    (fun acc q =>
      replaceAll (ctok q.1) ((effectiveValue provided q.1 q.2).getD "").data acc)
    s

/-- Modelled from the spec: `substitute(template, provided, specs)` of the
command template engine (implementation file tools.py absent from the
snapshot).  It fails fast on a required parameter with no effective value,
then on a provided name not declared in the specs, and otherwise performs one
literal replace pass per declared parameter. -/
def substitute (template : String) (provided : List (String × String))
    (specs : List (String × ParamSpec)) : Except SubstError String :=
  match specs.find? (fun q => q.2.required && (effectiveValue provided q.1 q.2).isNone) with
  | some q => .error (.missingRequired q.1)
  | none =>
    match provided.find? (fun q => (lookupStr specs q.1).isNone) with
    | some q => .error (.unknownParameter q.1)
    | none => .ok (String.mk (applyPasses provided specs template.data))

/-- A structured view of a command template: an alternation of literal text
segments and declared parameter holes.  `flatten` recovers the raw template
string the engine actually receives. -/
inductive Piece where
  | lit (s : List Char)
  | hole (n : String)
deriving DecidableEq

/-- Raw character form of a structured template. -/
def flatten : List Piece → List Char
  | [] => []
  | .lit s :: T => s ++ flatten T
  | .hole n :: T => ctok n ++ flatten T

/-- Well-formedness of a structured template: literal segments and hole names
contain no angle-bracket characters, so tokens occur exactly at the holes. -/
def TWF (T : List Piece) : Bool :=
  T.all (fun p => match p with
    | .lit s => cleanB s
    | .hole n => cleanB n.data)

/-- Every hole of the structured template names a declared parameter; this is
the validator invariant for accepted configurations. -/
def holesDeclared (specs : List (String × ParamSpec)) (T : List Piece) : Bool :=
  T.all (fun p => match p with
    | .hole m => specs.any (fun q => q.1 == m)
    | .lit _ => true)

/-- Effect of one substitution pass on a structured template: the matching
holes become literal text, everything else is untouched. -/
def substPiece (n : String) (v : List Char) : Piece → Piece
  | .lit s => .lit s
  | .hole m => if m = n then .lit v else .hole m

/-- Net effect of running all passes on one piece: a hole declared in the
specs becomes the literal text of its effective value (or empty when the
value is absent), and everything else is untouched. -/
def resolvePiece (provided : List (String × String))
    (specs : List (String × ParamSpec)) : Piece → Piece
  | .lit s => .lit s
  | .hole m =>
    match specs.find? (fun q => q.1 == m) with
    | some q => .lit ((effectiveValue provided q.1 q.2).getD "").data
    | none => .hole m

/-- Captured output of a completed child process. -/
structure ExecutionResult where
  stdout : String
  stderr : String
  exit_code : Int
deriving DecidableEq

/-- Outcome of handing a command line to the operating system: either the
process ran to completion, or spawning it failed outright. -/
inductive SpawnOutcome where
  | completed (r : ExecutionResult)
  | spawnFailure (msg : String)
deriving DecidableEq

/-- Modelled from the spec: the result classification of `execute_command`
(implementation file absent from the snapshot; its shape is also recorded in
the playbook).  Exit code zero returns stdout, falling back to stderr when
stdout is empty; a non-zero exit code returns a formatted error string
embedding the exit code and the stderr content; a spawn failure is converted
to the same textual error style.  No case raises. -/
def formatOutcome : SpawnOutcome → String
  | .completed r =>
    if r.exit_code = 0 then
      if r.stdout = "" then r.stderr else r.stdout
    else
      "Error (exit code " ++ toString r.exit_code ++ "): " ++ r.stderr
  | .spawnFailure msg => "Error: " ++ msg

/-- Modelled from the spec: `execute_command` runs a fully substituted
command string through the external process runner and formats the outcome
as a plain string result. -/
def execute_command (runner : String → SpawnOutcome) (cmd : String) : String :=
  formatOutcome (runner cmd)

/-- Textual form of an invocation-time template error, surfaced to the
caller as the result string rather than as an exception. -/
def invocationErrorText : SubstError → String
  | .missingRequired n => "Error: Missing required parameter: " ++ n
  | .unknownParameter n => "Error: Unknown parameter: " ++ n

/-- Modelled from the spec: a compiled tool handler (the Tool Compiler output;
the dynamic code generation of the source is absent from the snapshot).  On
invocation it validates and substitutes the provided values, executes the
resulting command, and converts every failure into a string result. -/
def invokeTool (template : String) (specs : List (String × ParamSpec))
    (runner : String → SpawnOutcome) (provided : List (String × String)) : String :=
  match substitute template provided specs with
  | .error e => invocationErrorText e
  | .ok cmd => execute_command runner cmd

/-- Splits a character list at the first occurrence of `pat`, returning the
text before the match and the text after it. -/
def splitFirst (pat : List Char) : List Char → Option (List Char × List Char)
  | [] => none
  | c :: rest =>
    if pat.isPrefixOf (c :: rest) then some ([], (c :: rest).drop pat.length)
    else
      match splitFirst pat rest with
      | some (a, b) => some (c :: a, b)
      | none => none

/-- Truthiness of a prompt argument: its provided value exists and is a
non-empty string. -/
def truthy (provided : List (String × String)) (n : String) : Bool :=
  match lookupStr provided n with
  | some v => v != ""
  | none => false

/-- Opening delimiter of a conditional block in a prompt template. -/
def openIfTag : List Char := "\x7b\x7b#if ".data

/-- Closing delimiter of a conditional block in a prompt template. -/
def closeIfTag : List Char := "\x7b\x7b/if\x7d\x7d".data

/-- Parses a conditional block at the head of the text (which is assumed to
start with the opening delimiter): reads the argument name up to the closing
braces, then takes the block body up to the first closing delimiter,
returning the name, the body, and the text after the block. -/
def parseCond (s : List Char) : Option (String × List Char × List Char) :=
  let after := s.drop openIfTag.length
  let name := after.takeWhile (fun ch => ch != '\x7d')
  let rem := after.drop name.length
  if ('\x7d' :: '\x7d' :: []).isPrefixOf rem then
    match splitFirst closeIfTag (rem.drop 2) with
    | some (body, post) => some (String.mk name, body, post)
    | none => none
  else none

/-- Fuel-indexed conditional-block resolution pass for prompt templates:
a conditional block keeps its body (never rescanned for further blocks)
exactly when its named argument is truthy and drops the whole block
otherwise; all other text is copied through. -/
def resolveCondsAux (provided : List (String × String)) : Nat → List Char → List Char
  | _, [] => []
  | 0, s => s
  | fuel + 1, c :: rest =>
    if openIfTag.isPrefixOf (c :: rest) then
      match parseCond (c :: rest) with
      | some (name, body, post) =>
        (if truthy provided name then body else []) ++ resolveCondsAux provided fuel post
      | none => c :: resolveCondsAux provided fuel rest
    else c :: resolveCondsAux provided fuel rest

/-- Conditional-block resolution pass over a whole template. -/
def resolveConds (provided : List (String × String)) (s : List Char) : List Char :=
  resolveCondsAux provided s.length s

/-- Prompt argument metadata: same shape as a command parameter minus the
default value. -/
structure ArgSpec where
  description : String
  required : Bool
deriving DecidableEq

/-- Modelled from the spec: `render(template, provided, specs)` of the prompt
template engine (the prompts implementation file is absent from the
snapshot).  Required arguments absent at render time fail fast; then
conditional blocks are resolved, and a plain variable-substitution pass per
declared argument runs on whatever text remains. -/
def render (template : String) (provided : List (String × String))
    (specs : List (String × ArgSpec)) : Except SubstError String :=
  match specs.find? (fun q => q.2.required && (lookupStr provided q.1).isNone) with
  | some q => .error (.missingRequired q.1)
  | none =>
    .ok (String.mk (specs.foldl
      (fun acc q => replaceAll (vtok q.1) ((lookupStr provided q.1).getD "").data acc)
      (resolveConds provided template.data)))

/-- Fuel-indexed scan of a command template for `<<name>>` placeholder
tokens, in order of appearance: a token is a literal opening `<<`, a
non-empty run of non-angle-bracket characters, and a literal closing `>>`. -/
def findTokensAux : Nat → List Char → List String
  | _, [] => []
  | 0, _ => []
  | fuel + 1, c :: rest =>
    if c = '<' then
      match rest with
      | '<' :: after =>
        let name := after.takeWhile (fun ch => !(ch == '<') && !(ch == '>'))
        let rem := after.drop name.length
        if name.isEmpty then findTokensAux fuel rest
        else if ('>' :: '>' :: []).isPrefixOf rem then
          String.mk name :: findTokensAux fuel (rem.drop 2)
        else findTokensAux fuel rest
      | _ => findTokensAux fuel rest
    else findTokensAux fuel rest

/-- All placeholder tokens appearing in a template, leftmost first. -/
def findTokens (s : List Char) : List String := findTokensAux s.length s

/-- Modelled from the spec: the placeholder/parameter consistency check of
`validate_tool_config` (mcp_server.py is absent from the snapshot).  A token
in the template with no declared parameter is a fatal validation error; a
declared parameter never referenced by the template is accepted and only
produces a warning. -/
def validate_tool_config (template : String)
    (params : List (String × ParamSpec)) : Except String (List String) :=
  match (findTokens template.data).find? (fun n => !(params.any (fun q => q.1 == n))) with
  | some n =>
    .error ("Parameter \x27" ++ n ++ "\x27 in command_template is not defined in parameters")
  | none =>
    .ok ((params.filter (fun q => !((findTokens template.data).contains q.1))).map
      (fun q => "Parameter \x27" ++ q.1 ++ "\x27 is declared but not used in command_template"))

/-- Information about a parsed tool from the configuration, as in the
source dataclass of the same name. -/
structure ToolInfo where
  tool_name : String
  description : String
  command_template : String
  parameters : List (String × ParamSpec)
deriving DecidableEq

/-- One line of the parameter table in a registered tool description. -/
def paramLine (q : String × ParamSpec) : String :=
  "- " ++ q.1 ++ (if q.2.required then " [REQUIRED]" else " [OPTIONAL]") ++
    " (string): " ++ q.2.description

/-- Joins rendered lines with newline separators. -/
def joinLines : List (List Char) → List Char
  | [] => []
  | [l] => l
  | l :: ls => l ++ '\n' :: joinLines ls

/-- Modelled from the spec and the notebook-recorded registered descriptions:
`get_full_description` of ToolInfo (tools.py absent from the snapshot)
combines the configured description, the raw command template under a
COMMAND CALLED heading, and one [REQUIRED]/[OPTIONAL] line per declared
parameter. -/
def get_full_description (info : ToolInfo) : String :=
  let base := "TOOL DESCRIPTION:\n\n" ++ info.description ++
    "\n\nCOMMAND CALLED:\n\n\x60" ++ info.command_template ++ "\x60"
  match info.parameters with
  | [] => base
  | q :: _ =>
    base ++ "\n\nText like <<parameter_name>> (e.g. <<" ++ q.1 ++
      ">>) will be replaced with parameter values.\n\nPARAMETERS:\n\n" ++
      String.mk (joinLines (info.parameters.map (fun p => (paramLine p).data)))

theorem replaceAllAux_irrel (pat rep : List Char) (hpat : pat ≠ []) :
    ∀ f₁ f₂ s, s.length ≤ f₁ → s.length ≤ f₂ →
      replaceAllAux pat rep f₁ s = replaceAllAux pat rep f₂ s := by
  intro f₁
  induction f₁ with
  | zero =>
    intro f₂ s h₁ _
    have hs : s = [] := List.length_eq_zero.mp (Nat.le_zero.mp h₁)
    subst hs
    cases f₂ <;> rfl
  | succ f₁ ih =>
    intro f₂ s h₁ h₂
    match s with
    | [] => cases f₂ <;> rfl
    | c :: rest =>
      match f₂ with
      | 0 => simp at h₂
      | f₂ + 1 =>
        have hplen : 1 ≤ pat.length := by
          cases pat with
          | nil => exact absurd rfl hpat
          | cons p ps => simp
        have hr₁ : rest.length ≤ f₁ := by simp at h₁; omega
        have hr₂ : rest.length ≤ f₂ := by simp at h₂; omega
        simp only [replaceAllAux]
        cases hp : pat.isPrefixOf (c :: rest) with
        | true =>
          simp only [hp, if_true]
          have hd : ((c :: rest).drop pat.length).length ≤ rest.length := by
            rw [List.length_drop]
            simp only [List.length_cons]
            omega
          rw [ih f₂ _ (le_trans hd hr₁) (le_trans hd hr₂)]
        | false =>
          simp only [hp, Bool.false_eq_true, if_false]
          rw [ih f₂ rest hr₁ hr₂]

theorem replaceAll_nil (pat rep : List Char) : replaceAll pat rep [] = [] := rfl

theorem replaceAll_pos (pat rep : List Char) (hpat : pat ≠ []) (c : Char)
    (rest : List Char) (hp : pat.isPrefixOf (c :: rest) = true) :
    replaceAll pat rep (c :: rest) =
      rep ++ replaceAll pat rep ((c :: rest).drop pat.length) := by
  have hplen : 1 ≤ pat.length := by
    cases pat with
    | nil => exact absurd rfl hpat
    | cons p ps => simp
  have hd : ((c :: rest).drop pat.length).length ≤ rest.length := by
    rw [List.length_drop]; simp only [List.length_cons]; omega
  show replaceAllAux pat rep (rest.length + 1) (c :: rest) = _
  simp only [replaceAllAux, hp, if_true]
  rw [replaceAllAux_irrel pat rep hpat rest.length ((c :: rest).drop pat.length).length
    ((c :: rest).drop pat.length) hd (le_refl _)]
  rfl

theorem replaceAll_neg (pat rep : List Char) (c : Char) (rest : List Char)
    (hp : pat.isPrefixOf (c :: rest) = false) :
    replaceAll pat rep (c :: rest) = c :: replaceAll pat rep rest := by
  show replaceAllAux pat rep (rest.length + 1) (c :: rest) = _
  simp only [replaceAllAux, hp]
  rfl

theorem replaceAll_skip (pat rep : List Char) (p : Char) (pat' : List Char)
    (hpat : pat = p :: pat') :
    ∀ u t, (∀ c ∈ u, c ≠ p) →
      replaceAll pat rep (u ++ t) = u ++ replaceAll pat rep t := by
  intro u
  induction u with
  | nil => intro t _; simp
  | cons c u' ih =>
    intro t hu
    have hc : c ≠ p := hu c (by simp)
    have hp : pat.isPrefixOf (c :: (u' ++ t)) = false := by
      subst hpat
      simp only [List.isPrefixOf]
      rw [beq_eq_false_iff_ne.mpr (fun h => hc h.symm)]
      rfl
    rw [List.cons_append, replaceAll_neg pat rep c (u' ++ t) hp,
      ih t (fun x hx => hu x (by simp [hx]))]
    rfl

theorem replaceAll_match (pat rep : List Char) (hpat : pat ≠ []) (t : List Char) :
    replaceAll pat rep (pat ++ t) = rep ++ replaceAll pat rep t := by
  cases pat with
  | nil => exact absurd rfl hpat
  | cons p pat' =>
    have hp : (p :: pat').isPrefixOf (p :: (pat' ++ t)) = true := by
      rw [show p :: (pat' ++ t) = (p :: pat') ++ t from rfl]
      exact List.isPrefixOf_iff_prefix.mpr (List.prefix_append _ _)
    rw [List.cons_append, replaceAll_pos (p :: pat') rep (by simp) p (pat' ++ t) hp]
    congr 1
    rw [show p :: (pat' ++ t) = (p :: pat') ++ t from rfl, List.drop_left]

theorem cleanB_mem {l : List Char} (h : cleanB l = true) {c : Char} (hc : c ∈ l) :
    c ≠ '<' ∧ c ≠ '>' := by
  have := List.all_eq_true.mp h c hc
  constructor
  · intro he; subst he; simp at this
  · intro he; subst he; simp at this

theorem isPrefixOf_cons_cons (a b : Char) (x y : List Char) :
    (a :: x).isPrefixOf (b :: y) = ((a == b) && x.isPrefixOf y) := rfl

theorem name_neq_no_prefix :
    ∀ (a b : List Char), (∀ c ∈ a, c ≠ '<' ∧ c ≠ '>') →
      (∀ c ∈ b, c ≠ '<' ∧ c ≠ '>') → a ≠ b → ∀ s₁ s₂,
      (a ++ '>' :: '>' :: s₁).isPrefixOf (b ++ '>' :: '>' :: s₂) = false := by
  intro a
  induction a with
  | nil =>
    intro b _ hb hne s₁ s₂
    cases b with
    | nil => exact absurd rfl hne
    | cons d b' =>
      show ('>' :: '>' :: s₁).isPrefixOf (d :: (b' ++ '>' :: '>' :: s₂)) = false
      rw [isPrefixOf_cons_cons, beq_eq_false_iff_ne.mpr (fun h => (hb d (by simp)).2 h.symm)]
      simp
  | cons c a' ih =>
    intro b ha hb hne s₁ s₂
    cases b with
    | nil =>
      show (c :: (a' ++ '>' :: '>' :: s₁)).isPrefixOf ('>' :: '>' :: s₂) = false
      rw [isPrefixOf_cons_cons, beq_eq_false_iff_ne.mpr (ha c (by simp)).2]
      simp
    | cons d b' =>
      show (c :: (a' ++ '>' :: '>' :: s₁)).isPrefixOf (d :: (b' ++ '>' :: '>' :: s₂)) = false
      rw [isPrefixOf_cons_cons]
      by_cases hcd : c = d
      · subst hcd
        rw [ih b' (fun x hx => ha x (by simp [hx])) (fun x hx => hb x (by simp [hx]))
          (fun h => hne (by rw [h])) s₁ s₂]
        simp
      · rw [beq_eq_false_iff_ne.mpr hcd]
        simp

theorem replaceAll_skip_token (n m : String) (rep : List Char)
    (hm : cleanB m.data = true) (hn : cleanB n.data = true) (hne : m ≠ n)
    (t : List Char) :
    replaceAll (ctok n) rep (ctok m ++ t) = ctok m ++ replaceAll (ctok n) rep t := by
  have key := name_neq_no_prefix n.data m.data
    (fun c hc => cleanB_mem hn hc) (fun c hc => cleanB_mem hm hc)
    (fun h => hne (String.ext h).symm)
  have h0 : (ctok n).isPrefixOf (ctok m ++ t) = false := by
    show ('<' :: '<' :: (n.data ++ ['>', '>'])).isPrefixOf
      ('<' :: ('<' :: (m.data ++ ['>', '>']) ++ t)) = false
    rw [isPrefixOf_cons_cons]
    rw [show ('<' :: (m.data ++ ['>', '>'])) ++ t = '<' :: (m.data ++ '>' :: '>' :: t) by simp]
    rw [isPrefixOf_cons_cons]
    rw [show n.data ++ ['>', '>'] = n.data ++ '>' :: '>' :: ([] : List Char) by simp]
    rw [key [] t]
    simp
  have h1 : (ctok n).isPrefixOf ('<' :: (m.data ++ ['>', '>'] ++ t)) = false := by
    show ('<' :: '<' :: (n.data ++ ['>', '>'])).isPrefixOf
      ('<' :: (m.data ++ ['>', '>'] ++ t)) = false
    rw [isPrefixOf_cons_cons]
    cases hmd : m.data with
    | nil =>
      rw [show ([] : List Char) ++ ['>', '>'] ++ t = '>' :: '>' :: t by simp]
      rw [isPrefixOf_cons_cons]
      simp
    | cons d md' =>
      have hd := cleanB_mem hm (show d ∈ m.data by rw [hmd]; simp)
      rw [show (d :: md') ++ ['>', '>'] ++ t = d :: (md' ++ ['>', '>'] ++ t) by simp]
      rw [isPrefixOf_cons_cons, beq_eq_false_iff_ne.mpr (fun h => hd.1 h.symm)]
      simp
  have step0 : ctok m ++ t = '<' :: ('<' :: (m.data ++ ['>', '>'] ++ t)) := by
    show '<' :: '<' :: (m.data ++ ['>', '>']) ++ t = _
    simp
  rw [step0, replaceAll_neg _ _ _ _ (by rw [← step0]; exact h0),
    replaceAll_neg _ _ _ _ h1]
  have hclean : ∀ c ∈ m.data ++ ['>', '>'], c ≠ '<' := by
    intro c hc
    rcases List.mem_append.mp hc with h | h
    · exact (cleanB_mem hm h).1
    · simp at h
      subst h
      simp
  rw [replaceAll_skip (ctok n) rep '<' ('<' :: (n.data ++ ['>', '>'])) rfl
    (m.data ++ ['>', '>']) t hclean]
  show _ = ('<' :: '<' :: (m.data ++ ['>', '>'])) ++ _
  simp

theorem pass_flatten (n : String) (v : List Char) (hn : cleanB n.data = true) :
    ∀ T : List Piece, TWF T = true →
      replaceAll (ctok n) v (flatten T) = flatten (T.map (substPiece n v)) := by
  intro T
  induction T with
  | nil => intro _; rfl
  | cons p T' ih =>
    intro hT
    cases p with
    | lit s =>
      rw [show TWF (Piece.lit s :: T') = (cleanB s && TWF T') from rfl,
        Bool.and_eq_true] at hT
      show replaceAll (ctok n) v (s ++ flatten T') = s ++ flatten (T'.map (substPiece n v))
      rw [replaceAll_skip (ctok n) v '<' ('<' :: (n.data ++ ['>', '>'])) rfl s
        (flatten T') (fun c hc => (cleanB_mem hT.1 hc).1), ih hT.2]
    | hole m =>
      rw [show TWF (Piece.hole m :: T') = (cleanB m.data && TWF T') from rfl,
        Bool.and_eq_true] at hT
      by_cases hmn : m = n
      · subst hmn
        show replaceAll (ctok m) v (ctok m ++ flatten T') = _
        rw [replaceAll_match (ctok m) v (by simp [ctok]) (flatten T'), ih hT.2]
        simp only [List.map_cons, substPiece, if_pos rfl]
        rfl
      · show replaceAll (ctok n) v (ctok m ++ flatten T') = _
        rw [replaceAll_skip_token n m v hT.1 hn hmn (flatten T'), ih hT.2]
        simp only [List.map_cons, substPiece, if_neg hmn]
        rfl

theorem TWF_map_substPiece (n : String) (v : List Char) (hv : cleanB v = true) :
    ∀ T : List Piece, TWF T = true → TWF (T.map (substPiece n v)) = true := by
  intro T
  induction T with
  | nil => intro _; rfl
  | cons p T' ih =>
    intro hT
    cases p with
    | lit s =>
      rw [show TWF (Piece.lit s :: T') = (cleanB s && TWF T') from rfl,
        Bool.and_eq_true] at hT
      simp only [List.map_cons, substPiece]
      rw [show TWF (Piece.lit s :: T'.map (substPiece n v)) =
        (cleanB s && TWF (T'.map (substPiece n v))) from rfl]
      rw [hT.1, ih hT.2]
      rfl
    | hole m =>
      rw [show TWF (Piece.hole m :: T') = (cleanB m.data && TWF T') from rfl,
        Bool.and_eq_true] at hT
      simp only [List.map_cons, substPiece]
      by_cases hmn : m = n
      · rw [if_pos hmn]
        rw [show TWF (Piece.lit v :: T'.map (substPiece n v)) =
          (cleanB v && TWF (T'.map (substPiece n v))) from rfl]
        rw [hv, ih hT.2]
        rfl
      · rw [if_neg hmn]
        rw [show TWF (Piece.hole m :: T'.map (substPiece n v)) =
          (cleanB m.data && TWF (T'.map (substPiece n v))) from rfl]
        rw [hT.1, ih hT.2]
        rfl

theorem applyPasses_flatten (provided : List (String × String)) :
    ∀ (specs : List (String × ParamSpec)) (T : List Piece), TWF T = true →
      (∀ q ∈ specs, cleanB q.1.data = true ∧
        cleanB ((effectiveValue provided q.1 q.2).getD "").data = true) →
      applyPasses provided specs (flatten T) =
        flatten (specs.foldl
          (fun U q => U.map (substPiece q.1 ((effectiveValue provided q.1 q.2).getD "").data)) T) := by
  intro specs
  induction specs with
  | nil => intro T _ _; rfl
  | cons q specs' ih =>
    intro T hT hvals
    have hq := hvals q (by simp)
    show applyPasses provided specs'
      (replaceAll (ctok q.1) ((effectiveValue provided q.1 q.2).getD "").data (flatten T)) = _
    rw [pass_flatten q.1 ((effectiveValue provided q.1 q.2).getD "").data hq.1 T hT,
      ih (T.map (substPiece q.1 ((effectiveValue provided q.1 q.2).getD "").data))
        (TWF_map_substPiece q.1 _ hq.2 T hT)
        (fun r hr => hvals r (by simp [hr]))]
    rfl

theorem resolvePiece_cons_pos (provided : List (String × String))
    (q : String × ParamSpec) (specs : List (String × ParamSpec)) (m : String)
    (h : q.1 = m) :
    resolvePiece provided (q :: specs) (Piece.hole m) =
      Piece.lit ((effectiveValue provided q.1 q.2).getD "").data := by
  simp only [resolvePiece]
  rw [List.find?_cons_of_pos _ (by simp [h])]

theorem resolvePiece_cons_neg (provided : List (String × String))
    (q : String × ParamSpec) (specs : List (String × ParamSpec)) (m : String)
    (h : ¬ q.1 = m) :
    resolvePiece provided (q :: specs) (Piece.hole m) =
      resolvePiece provided specs (Piece.hole m) := by
  simp only [resolvePiece]
  rw [List.find?_cons_of_neg _ (by simp [h])]

theorem foldl_substPiece_resolve (provided : List (String × String)) :
    ∀ (specs : List (String × ParamSpec)) (T : List Piece),
      specs.foldl
        (fun U q => U.map (substPiece q.1 ((effectiveValue provided q.1 q.2).getD "").data)) T =
      T.map (resolvePiece provided specs) := by
  intro specs
  induction specs with
  | nil =>
    intro T
    show T = T.map (resolvePiece provided [])
    have h : ∀ p ∈ T, resolvePiece provided [] p = p := by
      intro p _
      cases p <;> rfl
    rw [List.map_congr_left h]
    simp
  | cons q specs' ih =>
    intro T
    show List.foldl _ (T.map (substPiece q.1 ((effectiveValue provided q.1 q.2).getD "").data))
      specs' = _
    rw [ih (T.map (substPiece q.1 ((effectiveValue provided q.1 q.2).getD "").data)),
      List.map_map]
    apply List.map_congr_left
    intro p _
    cases p with
    | lit s => rfl
    | hole m =>
      show resolvePiece provided specs'
        (substPiece q.1 ((effectiveValue provided q.1 q.2).getD "").data (Piece.hole m)) = _
      by_cases hmq : m = q.1
      · have h1 : substPiece q.1 ((effectiveValue provided q.1 q.2).getD "").data
            (Piece.hole m) = Piece.lit ((effectiveValue provided q.1 q.2).getD "").data := by
          simp [substPiece, hmq]
        rw [h1, resolvePiece_cons_pos provided q specs' m hmq.symm]
        rfl
      · have h1 : substPiece q.1 ((effectiveValue provided q.1 q.2).getD "").data
            (Piece.hole m) = Piece.hole m := by
          simp [substPiece, hmq]
        rw [h1, resolvePiece_cons_neg provided q specs' m (fun h => hmq h.symm)]

theorem substitute_flatten (provided : List (String × String))
    (specs : List (String × ParamSpec)) (T : List Piece) (hT : TWF T = true)
    (hvals : ∀ q ∈ specs, cleanB q.1.data = true ∧
      cleanB ((effectiveValue provided q.1 q.2).getD "").data = true)
    (hreq : specs.find?
      (fun q => q.2.required && (effectiveValue provided q.1 q.2).isNone) = none)
    (hunk : provided.find? (fun q => (lookupStr specs q.1).isNone) = none) :
    substitute (String.mk (flatten T)) provided specs =
      .ok (String.mk (flatten (T.map (resolvePiece provided specs)))) := by
  simp only [substitute, hreq, hunk]
  rw [applyPasses_flatten provided specs T hT hvals, foldl_substPiece_resolve provided specs T]

theorem cleanB_append (a b : List Char) : cleanB (a ++ b) = (cleanB a && cleanB b) :=
  List.all_append

theorem flatten_clean (provided : List (String × String))
    (specs : List (String × ParamSpec)) :
    ∀ T : List Piece, TWF T = true →
      (∀ q ∈ specs, cleanB ((effectiveValue provided q.1 q.2).getD "").data = true) →
      holesDeclared specs T = true →
      cleanB (flatten (T.map (resolvePiece provided specs))) = true := by
  intro T
  induction T with
  | nil => intro _ _ _; rfl
  | cons p T' ih =>
    intro hT hvals hdecl
    cases p with
    | lit s =>
      rw [show TWF (Piece.lit s :: T') = (cleanB s && TWF T') from rfl,
        Bool.and_eq_true] at hT
      rw [show holesDeclared specs (Piece.lit s :: T') = holesDeclared specs T' from rfl]
        at hdecl
      show cleanB (s ++ flatten (T'.map (resolvePiece provided specs))) = true
      rw [cleanB_append, hT.1, ih hT.2 hvals hdecl]
      rfl
    | hole m =>
      rw [show TWF (Piece.hole m :: T') = (cleanB m.data && TWF T') from rfl,
        Bool.and_eq_true] at hT
      rw [show holesDeclared specs (Piece.hole m :: T') =
        (specs.any (fun q => q.1 == m) && holesDeclared specs T') from rfl,
        Bool.and_eq_true] at hdecl
      have hfind : (specs.find? (fun q => q.1 == m)).isSome = true := by
        rw [List.find?_isSome]
        obtain ⟨q, hq, hbeq⟩ := List.any_eq_true.mp hdecl.1
        exact ⟨q, hq, hbeq⟩
      obtain ⟨r, hr⟩ := Option.isSome_iff_exists.mp hfind
      have hrmem : r ∈ specs := List.mem_of_find?_eq_some hr
      have hres : resolvePiece provided specs (Piece.hole m) =
          Piece.lit ((effectiveValue provided r.1 r.2).getD "").data := by
        simp only [resolvePiece]
        rw [hr]
      show cleanB (flatten (resolvePiece provided specs (Piece.hole m) ::
        T'.map (resolvePiece provided specs))) = true
      rw [hres]
      show cleanB (((effectiveValue provided r.1 r.2).getD "").data ++
        flatten (T'.map (resolvePiece provided specs))) = true
      rw [cleanB_append, hvals r hrmem, ih hT.2 hvals hdecl.2]
      rfl

theorem no_token_of_clean {out : List Char} (h : cleanB out = true) (nm : String) :
    ¬ (ctok nm <:+: out) := by
  intro hinf
  have hmem : '<' ∈ out := hinf.subset (by simp [ctok])
  exact (cleanB_mem h hmem).1 rfl

/-- C1 counterexample: the claim fails as universally stated, because a
substituted value may itself contain a placeholder-shaped substring.  With
template `<<a>>`, required parameter `a` provided as the value `<<a>>`, the
substituted command is the string `<<a>>`, which still contains the declared
placeholder token. -/
theorem C1_counterexample :
    substitute "<<a>>" [("a", "<<a>>")] [("a", ⟨"", true, none⟩)] = .ok "<<a>>" ∧
    ctok "a" <:+: ("<<a>>" : String).data := by
  constructor
  · rfl
  · rw [show ctok "a" = ("<<a>>" : String).data from rfl]

/-- C1 (amended): for a well-formed template (every angle bracket belongs to
a placeholder of a declared parameter) whose substituted values contain no
angle-bracket characters, once every required parameter has an effective
value and every provided name is declared, substitution succeeds and the
resulting command contains no `<<...>>` placeholder token for any name at
all. -/
theorem C1_no_remaining_tokens (T : List Piece) (provided : List (String × String))
    (specs : List (String × ParamSpec)) (hT : TWF T = true)
    (hvals : ∀ q ∈ specs, cleanB q.1.data = true ∧
      cleanB ((effectiveValue provided q.1 q.2).getD "").data = true)
    (hdecl : holesDeclared specs T = true)
    (hreq : ∀ q ∈ specs, q.2.required = true →
      (effectiveValue provided q.1 q.2).isSome = true)
    (hunk : ∀ q ∈ provided, (lookupStr specs q.1).isSome = true) :
    ∃ out, substitute (String.mk (flatten T)) provided specs = .ok out ∧
      ∀ nm : String, ¬ (ctok nm <:+: out.data) := by
  have hreq' : specs.find?
      (fun q => q.2.required && (effectiveValue provided q.1 q.2).isNone) = none := by
    rw [List.find?_eq_none]
    intro q hq hcontra
    rw [Bool.and_eq_true] at hcontra
    have h1 := hreq q hq hcontra.1
    cases hov : effectiveValue provided q.1 q.2 with
    | none => rw [hov] at h1; simp at h1
    | some v => rw [hov] at hcontra; simp at hcontra
  have hunk' : provided.find? (fun q => (lookupStr specs q.1).isNone) = none := by
    rw [List.find?_eq_none]
    intro q hq hcontra
    have h1 := hunk q hq
    cases hov : lookupStr specs q.1 with
    | none => rw [hov] at h1; simp at h1
    | some v => rw [hov] at hcontra; simp at hcontra
  refine ⟨_, substitute_flatten provided specs T hT hvals hreq' hunk', ?_⟩
  intro nm
  exact no_token_of_clean
    (flatten_clean provided specs T hT (fun q hq => (hvals q hq).2) hdecl) nm

/-- Witness for C1 (amended) at a concrete template `echo <<msg>>` with the
required parameter `msg` provided as `hi`. -/
theorem C1_no_remaining_tokens_witness :
    ∃ out, substitute (String.mk (flatten [Piece.lit "echo ".data, Piece.hole "msg"]))
      [("msg", "hi")] [("msg", ⟨"the message", true, none⟩)] = .ok out ∧
      ∀ nm : String, ¬ (ctok nm <:+: out.data) :=
  C1_no_remaining_tokens [Piece.lit "echo ".data, Piece.hole "msg"]
    [("msg", "hi")] [("msg", ⟨"the message", true, none⟩)]
    (by decide) (by decide) (by decide) (by decide) (by decide)

/-- C2: the process executor result classification.  For a completed child
process with exit code zero the result is stdout, falling back to stderr
when stdout is empty; for a non-zero exit code the result is a formatted
error string that contains both the exit code and the stderr content.  The
formatter is a total function into strings, so no case raises to the
caller. -/
theorem C2_executor_result (r : ExecutionResult) :
    (r.exit_code = 0 →
      formatOutcome (.completed r) = (if r.stdout = "" then r.stderr else r.stdout)) ∧
    (r.exit_code ≠ 0 →
      (toString r.exit_code).data <:+: (formatOutcome (.completed r)).data ∧
      r.stderr.data <:+: (formatOutcome (.completed r)).data) := by
  constructor
  · intro h
    simp [formatOutcome, h]
  · intro h
    have hfo : formatOutcome (.completed r) =
        "Error (exit code " ++ toString r.exit_code ++ "): " ++ r.stderr := by
      simp [formatOutcome, h]
    constructor
    · rw [hfo]
      refine ⟨"Error (exit code ".data, ("): " ++ r.stderr).data, ?_⟩
      simp [String.data_append]
    · rw [hfo]
      refine ⟨("Error (exit code " ++ toString r.exit_code ++ "): ").data, [], ?_⟩
      simp [String.data_append]

/-- Witness for C2: a process exiting 0 with stdout `ok` returns it, and a
process exiting 1 with stderr `not found` yields a result containing both
the exit code and the stderr text. -/
theorem C2_executor_result_witness :
    formatOutcome (.completed ⟨"ok\n", "", 0⟩) = "ok\n" ∧
    ((toString (1 : Int)).data <:+: (formatOutcome (.completed ⟨"", "not found", 1⟩)).data ∧
      ("not found" : String).data <:+: (formatOutcome (.completed ⟨"", "not found", 1⟩)).data) := by
  refine ⟨?_, (C2_executor_result ⟨"", "not found", 1⟩).2 (by decide)⟩
  have h := (C2_executor_result ⟨"ok\n", "", 0⟩).1 rfl
  rw [h]
  rfl

/-- C3: a required parameter whose effective value is absent makes the
engine signal a missing-required-parameter error: no substituted command
string is produced, and the compiled handler's result does not depend on
the process runner at all (so nothing is ever executed). -/
theorem C3_missing_required_fail_fast (template : String)
    (provided : List (String × String)) (specs : List (String × ParamSpec))
    (n : String) (sp : ParamSpec) (hmem : (n, sp) ∈ specs)
    (hreq : sp.required = true) (habs : effectiveValue provided n sp = none) :
    (∃ m, substitute template provided specs = .error (.missingRequired m)) ∧
    ∀ run₁ run₂ : String → SpawnOutcome,
      invokeTool template specs run₁ provided = invokeTool template specs run₂ provided := by
  have hsome : (specs.find?
      (fun q => q.2.required && (effectiveValue provided q.1 q.2).isNone)).isSome = true := by
    rw [List.find?_isSome]
    exact ⟨(n, sp), hmem, by simp [hreq, habs]⟩
  obtain ⟨r, hr⟩ := Option.isSome_iff_exists.mp hsome
  have hsub : substitute template provided specs = .error (.missingRequired r.1) := by
    simp only [substitute, hr]
  refine ⟨⟨r.1, hsub⟩, ?_⟩
  intro run₁ run₂
  simp only [invokeTool, hsub]

/-- Witness for C3 at the template `echo <<msg>>` with required `msg` not
provided. -/
theorem C3_missing_required_fail_fast_witness :
    (∃ m, substitute "echo <<msg>>" [] [("msg", ⟨"", true, none⟩)] =
      .error (.missingRequired m)) ∧
    ∀ run₁ run₂ : String → SpawnOutcome,
      invokeTool "echo <<msg>>" [("msg", ⟨"", true, none⟩)] run₁ [] =
        invokeTool "echo <<msg>>" [("msg", ⟨"", true, none⟩)] run₂ [] :=
  C3_missing_required_fail_fast "echo <<msg>>" [] [("msg", ⟨"", true, none⟩)]
    "msg" ⟨"", true, none⟩ (by simp) rfl rfl

/-- C4: elision of an absent optional parameter removes exactly the literal
token substring and leaves all surrounding literal text unchanged (general
statement on structured templates), and in particular the spec example with
single quotes and a trailing space comes out verbatim. -/
theorem C4_elision_exact :
    (∀ (T : List Piece) (n : String), TWF T = true → cleanB n.data = true →
      replaceAll (ctok n) [] (flatten T) = flatten (T.map (substPiece n []))) ∧
    substitute "find \x27<<dir>>\x27 <<extra>>" [("dir", "/tmp")]
      [("dir", ⟨"", true, none⟩), ("extra", ⟨"", false, none⟩)] =
      .ok "find \x27/tmp\x27 " := by
  constructor
  · intro T n hT hn
    exact pass_flatten n [] hn T hT
  · rfl

/-- Witness for C4's general half at a concrete template with an elided
optional parameter. -/
theorem C4_elision_exact_witness :
    replaceAll (ctok "extra") [] (flatten [Piece.lit "ls ".data, Piece.hole "extra"]) =
      flatten ([Piece.lit "ls ".data, Piece.hole "extra"].map (substPiece "extra" [])) ∧
    substitute "find \x27<<dir>>\x27 <<extra>>" [("dir", "/tmp")]
      [("dir", ⟨"", true, none⟩), ("extra", ⟨"", false, none⟩)] =
      .ok "find \x27/tmp\x27 " :=
  ⟨C4_elision_exact.1 [Piece.lit "ls ".data, Piece.hole "extra"] "extra"
    (by decide) (by decide), C4_elision_exact.2⟩

/-- C6: a compiled handler invocation always reduces to one of five plain
string results — missing-required error text, unknown-parameter error text,
a successful process result, a non-zero-exit error text, or a spawn-failure
error text — so every failure mode is recovered locally into the result
string and nothing propagates past the handler boundary. -/
theorem C6_handler_total (template : String) (specs : List (String × ParamSpec))
    (runner : String → SpawnOutcome) (provided : List (String × String)) :
    (∃ n, invokeTool template specs runner provided =
      "Error: Missing required parameter: " ++ n) ∨
    (∃ n, invokeTool template specs runner provided = "Error: Unknown parameter: " ++ n) ∨
    (∃ cmd r, substitute template provided specs = .ok cmd ∧ runner cmd = .completed r ∧
      r.exit_code = 0 ∧ invokeTool template specs runner provided =
        (if r.stdout = "" then r.stderr else r.stdout)) ∨
    (∃ cmd r, substitute template provided specs = .ok cmd ∧ runner cmd = .completed r ∧
      r.exit_code ≠ 0 ∧ invokeTool template specs runner provided =
        "Error (exit code " ++ toString r.exit_code ++ "): " ++ r.stderr) ∨
    (∃ cmd msg, substitute template provided specs = .ok cmd ∧
      runner cmd = .spawnFailure msg ∧
      invokeTool template specs runner provided = "Error: " ++ msg) := by
  cases hsub : substitute template provided specs with
  | error e =>
    cases e with
    | missingRequired n =>
      exact Or.inl ⟨n, by simp only [invokeTool, hsub, invocationErrorText]⟩
    | unknownParameter n =>
      exact Or.inr (Or.inl ⟨n, by simp only [invokeTool, hsub, invocationErrorText]⟩)
  | ok cmd =>
    cases hrun : runner cmd with
    | completed r =>
      by_cases hec : r.exit_code = 0
      · exact Or.inr (Or.inr (Or.inl ⟨cmd, r, rfl, hrun, hec, by
          simp only [invokeTool, hsub, execute_command, hrun, formatOutcome, if_pos hec]⟩))
      · exact Or.inr (Or.inr (Or.inr (Or.inl ⟨cmd, r, rfl, hrun, hec, by
          simp only [invokeTool, hsub, execute_command, hrun, formatOutcome, if_neg hec]⟩)))
    | spawnFailure msg =>
      exact Or.inr (Or.inr (Or.inr (Or.inr ⟨cmd, msg, rfl, hrun, by
        simp only [invokeTool, hsub, execute_command, hrun, formatOutcome]⟩)))

/-- C8 counterexample: with specs processed in order, the value substituted
for `a` — itself shaped like the `b` placeholder — is rescanned and
re-substituted by the later pass for `b`: the result is `X X`, not the
`<<b>> X` that a strict never-resubstitute reading of the claim predicts. -/
theorem C8_counterexample :
    substitute "<<a>> <<b>>" [("a", "<<b>>"), ("b", "X")]
      [("a", ⟨"", true, none⟩), ("b", ⟨"", true, none⟩)] = .ok "X X" ∧
    ("X X" : String) ≠ "<<b>> X" := by
  constructor
  · rfl
  · decide

/-- C8 (amended): substitution is a single left-to-right literal pass per
parameter in declaration order, and a substituted value is never rescanned
or re-substituted by the pass of the same parameter that inserted it: over
every well-formed structured template, the pass for parameter `n` replaces
exactly the holes named `n` by the value verbatim — for any value, even one
containing placeholder-shaped text — and all other pieces are untouched, so
no recursive expansion happens (the one-token instance returns any provided
value unchanged); however a later parameter's pass does scan text
substituted by earlier passes. -/
theorem C8_single_pass :
    (∀ (n : String) (v : List Char) (T : List Piece), cleanB n.data = true →
      TWF T = true →
      replaceAll (ctok n) v (flatten T) = flatten (T.map (substPiece n v))) ∧
    (∀ v : String, substitute "<<a>>" [("a", v)] [("a", ⟨"", true, none⟩)] = .ok v) ∧
    substitute "<<a>> <<b>>" [("a", "<<b>>"), ("b", "X")]
      [("a", ⟨"", true, none⟩), ("b", ⟨"", true, none⟩)] = .ok "X X" := by
  refine ⟨?_, ?_, rfl⟩
  · intro n v T hn hT
    exact pass_flatten n v hn T hT
  · intro v
    have h : substitute "<<a>>" [("a", v)] [("a", ⟨"", true, none⟩)] =
        .ok (String.mk (v.data ++ ([] : List Char))) := rfl
    rw [h, List.append_nil]

/-- Witness for C8 (amended): one pass for `a` on the template `<<a>>` with
the token-containing value `<<a>>x` inserts the value verbatim and does not
rescan it, both at the structured-template level and through the full
substitute function. -/
theorem C8_single_pass_witness :
    replaceAll (ctok "a") ("<<a>>x" : String).data (flatten [Piece.hole "a"]) =
      flatten ([Piece.hole "a"].map (substPiece "a" ("<<a>>x" : String).data)) ∧
    substitute "<<a>>" [("a", "<<a>>x")] [("a", ⟨"", true, none⟩)] = .ok "<<a>>x" :=
  ⟨C8_single_pass.1 "a" ("<<a>>x" : String).data [Piece.hole "a"] (by decide) (by decide),
    C8_single_pass.2.1 "<<a>>x"⟩

/-- C9: determinism — substitution is a pure function of the template, the
provided map, and the parameter specs; two invocations on identical inputs
return identical output. -/
theorem C9_deterministic (t₁ t₂ : String) (p₁ p₂ : List (String × String))
    (s₁ s₂ : List (String × ParamSpec)) (ht : t₁ = t₂) (hp : p₁ = p₂) (hs : s₁ = s₂) :
    substitute t₁ p₁ s₁ = substitute t₂ p₂ s₂ := by
  subst ht
  subst hp
  subst hs
  rfl

/-- Witness for C9 at a concrete invocation pair. -/
theorem C9_deterministic_witness :
    substitute "echo <<msg>>" [("msg", "hi")] [("msg", ⟨"", true, none⟩)] =
      substitute "echo <<msg>>" [("msg", "hi")] [("msg", ⟨"", true, none⟩)] :=
  C9_deterministic _ _ _ _ _ _ rfl rfl rfl

/-- C7: the descriptor validator fails exactly when some placeholder token
found in the command template names no declared parameter; in particular a
tool declaring `rm <<path>>` without a `path` parameter is rejected, while a
declared-but-unused parameter is accepted with a non-fatal warning. -/
theorem C7_validator_dangling_tokens (template : String)
    (params : List (String × ParamSpec)) :
    ((∃ e, validate_tool_config template params = .error e) ↔
      ∃ n ∈ findTokens template.data, ∀ q ∈ params, q.1 ≠ n) ∧
    (∃ e, validate_tool_config "rm <<path>>" [] = .error e) ∧
    validate_tool_config "ls -la" [("unused", ⟨"", false, none⟩)] =
      .ok ["Parameter \x27unused\x27 is declared but not used in command_template"] := by
  refine ⟨⟨?_, ?_⟩, ?_, ?_⟩
  · rintro ⟨e, he⟩
    cases hf : (findTokens template.data).find?
        (fun n => !(params.any (fun q => q.1 == n))) with
    | none =>
      rw [show validate_tool_config template params =
        .ok ((params.filter (fun q => !((findTokens template.data).contains q.1))).map
          (fun q => "Parameter \x27" ++ q.1 ++
            "\x27 is declared but not used in command_template")) from by
        simp only [validate_tool_config, hf]] at he
      exact Except.noConfusion he
    | some n =>
      refine ⟨n, List.mem_of_find?_eq_some hf, ?_⟩
      have hpred := List.find?_some hf
      rw [Bool.not_eq_true'] at hpred
      intro q hq heq
      have hany : params.any (fun r => r.1 == n) = true :=
        List.any_eq_true.mpr ⟨q, hq, by simp [heq]⟩
      rw [hany] at hpred
      exact Bool.noConfusion hpred
  · rintro ⟨n, hn, hq⟩
    cases hf : (findTokens template.data).find?
        (fun n => !(params.any (fun q => q.1 == n))) with
    | none =>
      exfalso
      have hnone := List.find?_eq_none.mp hf n hn
      rw [Bool.not_eq_true', Bool.not_eq_false] at hnone
      obtain ⟨q, hqmem, hbeq⟩ := List.any_eq_true.mp hnone
      exact hq q hqmem (by rwa [beq_iff_eq] at hbeq)
    | some m =>
      exact ⟨"Parameter \x27" ++ m ++ "\x27 in command_template is not defined in parameters",
        by simp only [validate_tool_config, hf]⟩
  · exact ⟨"Parameter \x27path\x27 in command_template is not defined in parameters", rfl⟩
  · rfl

/-- Witness for C7 at the template `rm <<path>>` with an empty parameter
map: the dangling `path` token makes the validator fail. -/
theorem C7_validator_dangling_tokens_witness :
    (∃ e, validate_tool_config "rm <<path>>" [] = .error e) ↔
      ∃ n ∈ findTokens ("rm <<path>>" : String).data, ∀ q ∈ ([] : List (String × ParamSpec)), q.1 ≠ n :=
  (C7_validator_dangling_tokens "rm <<path>>" []).1

theorem mem_joinLines : ∀ (L : List (List Char)) (x : List Char), x ∈ L → x <:+: joinLines L := by
  intro L
  induction L with
  | nil => intro x hx; simp at hx
  | cons l ls ih =>
    intro x hx
    cases ls with
    | nil =>
      simp at hx
      subst hx
      exact List.infix_refl x
    | cons l2 ls2 =>
      rcases List.mem_cons.mp hx with h | h
      · subst h
        exact ⟨[], '\n' :: joinLines (l2 :: ls2), rfl⟩
      · obtain ⟨s, t, hst⟩ := ih x h
        refine ⟨l ++ '\n' :: s, t, ?_⟩
        rw [show joinLines (l :: l2 :: ls2) = l ++ '\n' :: joinLines (l2 :: ls2) from rfl,
          ← hst]
        simp

/-- C10: the description registered for a compiled tool embeds the raw
command template verbatim between backticks directly under the COMMAND
CALLED heading, contains the configured tool description, and contains one
[REQUIRED]/[OPTIONAL] parameter line (with type and description) for every
declared parameter. -/
theorem C10_registered_description (info : ToolInfo) :
    (∃ x y : String, get_full_description info =
      x ++ "\n\nCOMMAND CALLED:\n\n\x60" ++ info.command_template ++ "\x60" ++ y) ∧
    ("COMMAND CALLED:" : String).data <:+: (get_full_description info).data ∧
    info.description.data <:+: (get_full_description info).data ∧
    ∀ q ∈ info.parameters, (paramLine q).data <:+: (get_full_description info).data := by
  have hhd : ("COMMAND CALLED:" : String).data <:+:
      ("\n\nCOMMAND CALLED:\n\n\x60" : String).data := by decide
  cases hp : info.parameters with
  | nil =>
    have hgfd : get_full_description info = "TOOL DESCRIPTION:\n\n" ++ info.description ++
        "\n\nCOMMAND CALLED:\n\n\x60" ++ info.command_template ++ "\x60" := by
      simp only [get_full_description, hp]
    refine ⟨⟨"TOOL DESCRIPTION:\n\n" ++ info.description, "", ?_⟩, ?_, ?_, ?_⟩
    · rw [hgfd]
      apply String.ext
      simp [String.data_append]
    · refine hhd.trans ⟨("TOOL DESCRIPTION:\n\n" ++ info.description).data,
        (info.command_template ++ "\x60").data, ?_⟩
      rw [hgfd]
      simp [String.data_append]
    · refine ⟨("TOOL DESCRIPTION:\n\n" : String).data,
        ("\n\nCOMMAND CALLED:\n\n\x60" ++ info.command_template ++ "\x60").data, ?_⟩
      rw [hgfd]
      simp [String.data_append]
    · intro q hq
      simp at hq
  | cons q0 rest =>
    have hgfd : get_full_description info = "TOOL DESCRIPTION:\n\n" ++ info.description ++
        "\n\nCOMMAND CALLED:\n\n\x60" ++ info.command_template ++ "\x60" ++
        "\n\nText like <<parameter_name>> (e.g. <<" ++ q0.1 ++
        ">>) will be replaced with parameter values.\n\nPARAMETERS:\n\n" ++
        String.mk (joinLines (info.parameters.map (fun p => (paramLine p).data))) := by
      simp only [get_full_description, hp]
    refine ⟨⟨"TOOL DESCRIPTION:\n\n" ++ info.description,
      "\n\nText like <<parameter_name>> (e.g. <<" ++ q0.1 ++
        ">>) will be replaced with parameter values.\n\nPARAMETERS:\n\n" ++
        String.mk (joinLines (info.parameters.map (fun p => (paramLine p).data))), ?_⟩,
      ?_, ?_, ?_⟩
    · rw [hgfd]
      apply String.ext
      simp [String.data_append]
    · refine hhd.trans ⟨("TOOL DESCRIPTION:\n\n" ++ info.description).data,
        (info.command_template ++ "\x60" ++
          "\n\nText like <<parameter_name>> (e.g. <<" ++ q0.1 ++
          ">>) will be replaced with parameter values.\n\nPARAMETERS:\n\n" ++
          String.mk (joinLines (info.parameters.map (fun p => (paramLine p).data)))).data, ?_⟩
      rw [hgfd]
      simp [String.data_append]
    · refine ⟨("TOOL DESCRIPTION:\n\n" : String).data,
        ("\n\nCOMMAND CALLED:\n\n\x60" ++ info.command_template ++ "\x60" ++
          "\n\nText like <<parameter_name>> (e.g. <<" ++ q0.1 ++
          ">>) will be replaced with parameter values.\n\nPARAMETERS:\n\n" ++
          String.mk (joinLines (info.parameters.map (fun p => (paramLine p).data)))).data, ?_⟩
      rw [hgfd]
      simp [String.data_append]
    · intro q hq
      have hq2 : q ∈ info.parameters := by rw [hp]; exact hq
      have hline : (paramLine q).data <:+:
          joinLines (info.parameters.map (fun p => (paramLine p).data)) :=
        mem_joinLines _ _ (List.mem_map_of_mem _ hq2)
      refine hline.trans ?_
      refine ⟨("TOOL DESCRIPTION:\n\n" ++ info.description ++
        "\n\nCOMMAND CALLED:\n\n\x60" ++ info.command_template ++ "\x60" ++
        "\n\nText like <<parameter_name>> (e.g. <<" ++ q0.1 ++
        ">>) will be replaced with parameter values.\n\nPARAMETERS:\n\n").data, [], ?_⟩
      rw [hgfd]
      simp [String.data_append]

/-- Witness for C10 at a concrete two-parameter tool. -/
theorem C10_registered_description_witness :
    (∃ x y : String, get_full_description
        ⟨"t", "does things", "tool <<a>> <<b>>",
          [("a", ⟨"first", true, none⟩), ("b", ⟨"second", false, none⟩)]⟩ =
      x ++ "\n\nCOMMAND CALLED:\n\n\x60" ++ "tool <<a>> <<b>>" ++ "\x60" ++ y) ∧
    (paramLine ("b", ⟨"second", false, none⟩)).data <:+:
      (get_full_description ⟨"t", "does things", "tool <<a>> <<b>>",
        [("a", ⟨"first", true, none⟩), ("b", ⟨"second", false, none⟩)]⟩).data := by
  have h := C10_registered_description
    ⟨"t", "does things", "tool <<a>> <<b>>",
      [("a", ⟨"first", true, none⟩), ("b", ⟨"second", false, none⟩)]⟩
  exact ⟨h.1, h.2.2.2 ("b", ⟨"second", false, none⟩) (by simp)⟩

theorem openIfTag_cons :
    openIfTag = '\x7b' :: ('\x7b' :: '#' :: 'i' :: 'f' :: ' ' :: []) := rfl

theorem closeIfTag_cons :
    closeIfTag = '\x7b' :: ('\x7b' :: '/' :: 'i' :: 'f' :: '\x7d' :: '\x7d' :: []) := rfl

theorem splitFirst_length (pat : List Char) :
    ∀ s a b, splitFirst pat s = some (a, b) → b.length ≤ s.length := by
  intro s
  induction s with
  | nil => intro a b h; exact absurd h (by simp [splitFirst])
  | cons c rest ih =>
    intro a b h
    cases hp : pat.isPrefixOf (c :: rest) with
    | true =>
      simp only [splitFirst, hp, if_true] at h
      have h' := Option.some.inj h
      have hb : b = (c :: rest).drop pat.length := (congrArg Prod.snd h').symm
      rw [hb, List.length_drop]
      omega
    | false =>
      simp only [splitFirst, hp, Bool.false_eq_true, if_false] at h
      cases hrec : splitFirst pat rest with
      | none => rw [hrec] at h; exact absurd h (by simp)
      | some ab =>
        obtain ⟨a', b'⟩ := ab
        rw [hrec] at h
        have h' := Option.some.inj h
        have hb : b = b' := (congrArg Prod.snd h').symm
        rw [hb]
        have := ih a' b' hrec
        simp only [List.length_cons]
        omega

theorem splitFirst_exact (p : Char) (pat' : List Char) :
    ∀ u v, (∀ c ∈ u, c ≠ p) →
      splitFirst (p :: pat') (u ++ ((p :: pat') ++ v)) = some (u, v) := by
  intro u
  induction u with
  | nil =>
    intro v _
    show splitFirst (p :: pat') ((p :: pat') ++ v) = some ([], v)
    rw [show (p :: pat') ++ v = p :: (pat' ++ v) from rfl]
    have hp : (p :: pat').isPrefixOf (p :: (pat' ++ v)) = true := by
      rw [show p :: (pat' ++ v) = (p :: pat') ++ v from rfl]
      exact List.isPrefixOf_iff_prefix.mpr (List.prefix_append _ _)
    simp only [splitFirst, hp, if_true]
    rw [show p :: (pat' ++ v) = (p :: pat') ++ v from rfl, List.drop_left]
  | cons c u' ih =>
    intro v hu
    have hc : c ≠ p := hu c (by simp)
    have hp : (p :: pat').isPrefixOf (c :: (u' ++ ((p :: pat') ++ v))) = false := by
      rw [isPrefixOf_cons_cons, beq_eq_false_iff_ne.mpr (fun h => hc h.symm)]
      simp
    rw [show (c :: u') ++ ((p :: pat') ++ v) = c :: (u' ++ ((p :: pat') ++ v)) from rfl]
    simp only [splitFirst, hp, Bool.false_eq_true, if_false]
    rw [ih v (fun x hx => hu x (by simp [hx]))]

theorem parseCond_post_length (c : Char) (rest : List Char) (name : String)
    (body post : List Char) (h : parseCond (c :: rest) = some (name, body, post)) :
    post.length ≤ rest.length := by
  simp only [parseCond] at h
  split at h
  · split at h
    · rename_i a b heq
      have h' := Option.some.inj h
      have hpost : post = b := (congrArg (fun x => x.2.2) h').symm
      have hlen := splitFirst_length closeIfTag _ a b heq
      rw [hpost]
      simp only [List.length_drop, List.length_cons] at hlen ⊢
      omega
    · exact absurd h (by simp)
  · exact absurd h (by simp)

theorem resolveCondsAux_irrel (provided : List (String × String)) :
    ∀ f₁ f₂ s, s.length ≤ f₁ → s.length ≤ f₂ →
      resolveCondsAux provided f₁ s = resolveCondsAux provided f₂ s := by
  intro f₁
  induction f₁ with
  | zero =>
    intro f₂ s h₁ _
    have hs : s = [] := List.length_eq_zero.mp (Nat.le_zero.mp h₁)
    subst hs
    cases f₂ <;> rfl
  | succ f₁ ih =>
    intro f₂ s h₁ h₂
    match s with
    | [] => cases f₂ <;> rfl
    | c :: rest =>
      match f₂ with
      | 0 => simp at h₂
      | f₂ + 1 =>
        have hr₁ : rest.length ≤ f₁ := by simp at h₁; omega
        have hr₂ : rest.length ≤ f₂ := by simp at h₂; omega
        simp only [resolveCondsAux]
        cases hp : openIfTag.isPrefixOf (c :: rest) with
        | false =>
          simp only [hp, Bool.false_eq_true, if_false]
          rw [ih f₂ rest hr₁ hr₂]
        | true =>
          simp only [hp, if_true]
          cases hpc : parseCond (c :: rest) with
          | none =>
            simp only [hpc]
            rw [ih f₂ rest hr₁ hr₂]
          | some x =>
            obtain ⟨name, body, post⟩ := x
            simp only [hpc]
            have hlen := parseCond_post_length c rest name body post hpc
            rw [ih f₂ post (le_trans hlen hr₁) (le_trans hlen hr₂)]

theorem resolveConds_neg (provided : List (String × String)) (c : Char)
    (rest : List Char) (hp : openIfTag.isPrefixOf (c :: rest) = false) :
    resolveConds provided (c :: rest) = c :: resolveConds provided rest := by
  show resolveCondsAux provided (rest.length + 1) (c :: rest) = _
  simp only [resolveCondsAux, hp, Bool.false_eq_true, if_false]
  rfl

theorem resolveConds_pos (provided : List (String × String)) (c : Char)
    (rest : List Char) (name : String) (body post : List Char)
    (hp : openIfTag.isPrefixOf (c :: rest) = true)
    (hparse : parseCond (c :: rest) = some (name, body, post)) :
    resolveConds provided (c :: rest) =
      (if truthy provided name then body else []) ++ resolveConds provided post := by
  have hlen := parseCond_post_length c rest name body post hparse
  show resolveCondsAux provided (rest.length + 1) (c :: rest) = _
  simp only [resolveCondsAux, hp, if_true, hparse]
  rw [resolveCondsAux_irrel provided rest.length post.length post hlen (le_refl _)]
  rfl

theorem resolveConds_skip (provided : List (String × String)) :
    ∀ u t, (∀ c ∈ u, c ≠ '\x7b') →
      resolveConds provided (u ++ t) = u ++ resolveConds provided t := by
  intro u
  induction u with
  | nil => intro t _; simp
  | cons c u' ih =>
    intro t hu
    have hc : c ≠ '\x7b' := hu c (by simp)
    have hp : openIfTag.isPrefixOf (c :: (u' ++ t)) = false := by
      rw [openIfTag_cons, isPrefixOf_cons_cons,
        beq_eq_false_iff_ne.mpr (fun h => hc h.symm)]
      simp
    rw [List.cons_append, resolveConds_neg provided c (u' ++ t) hp,
      ih t (fun x hx => hu x (by simp [hx]))]
    rfl

theorem takeWhile_prefix_exact (p : Char → Bool) :
    ∀ (u : List Char) (d : Char) (w : List Char), (∀ c ∈ u, p c = true) →
      p d = false → (u ++ d :: w).takeWhile p = u := by
  intro u
  induction u with
  | nil =>
    intro d w _ hd
    simp [List.takeWhile, hd]
  | cons c u' ih =>
    intro d w hu hd
    have hc : p c = true := hu c (by simp)
    rw [List.cons_append]
    simp only [List.takeWhile, hc]
    rw [ih d w (fun x hx => hu x (by simp [hx])) hd]

theorem parseCond_exact (n : String) (body post : List Char)
    (hn : ∀ c ∈ n.data, c ≠ '\x7d') (hbody : ∀ c ∈ body, c ≠ '\x7b') :
    parseCond (openIfTag ++ (n.data ++
        ('\x7d' :: '\x7d' :: (body ++ (closeIfTag ++ post))))) =
      some (n, body, post) := by
  have hdrop1 : (openIfTag ++ (n.data ++
      ('\x7d' :: '\x7d' :: (body ++ (closeIfTag ++ post))))).drop openIfTag.length =
      n.data ++ ('\x7d' :: '\x7d' :: (body ++ (closeIfTag ++ post))) :=
    List.drop_left _ _
  have htake : (n.data ++ ('\x7d' :: '\x7d' :: (body ++ (closeIfTag ++ post)))).takeWhile
      (fun ch => ch != '\x7d') = n.data := by
    apply takeWhile_prefix_exact
    · intro c hc
      have := hn c hc
      simp [this]
    · simp
  simp only [parseCond, hdrop1, htake]
  rw [List.drop_left]
  have hbr : ('\x7d' :: '\x7d' :: []).isPrefixOf
      ('\x7d' :: '\x7d' :: (body ++ (closeIfTag ++ post))) = true := by
    rw [isPrefixOf_cons_cons, isPrefixOf_cons_cons]
    simp
  rw [hbr]
  simp only [if_true, List.drop_succ_cons, List.drop_zero]
  have hsp : splitFirst closeIfTag (body ++ (closeIfTag ++ post)) = some (body, post) := by
    rw [closeIfTag_cons]
    exact splitFirst_exact '\x7b' _ body post hbody
  rw [hsp]

theorem resolveConds_block (provided : List (String × String)) (pre : List Char)
    (n : String) (body post : List Char) (hpre : ∀ c ∈ pre, c ≠ '\x7b')
    (hn : ∀ c ∈ n.data, c ≠ '\x7d') (hbody : ∀ c ∈ body, c ≠ '\x7b') :
    resolveConds provided (pre ++ (openIfTag ++ (n.data ++
        ('\x7d' :: '\x7d' :: (body ++ (closeIfTag ++ post)))))) =
      pre ++ ((if truthy provided n then body else []) ++ resolveConds provided post) := by
  rw [resolveConds_skip provided pre _ hpre]
  congr 1
  have hparse := parseCond_exact n body post hn hbody
  have hp : openIfTag.isPrefixOf (openIfTag ++ (n.data ++
      ('\x7d' :: '\x7d' :: (body ++ (closeIfTag ++ post))))) = true :=
    List.isPrefixOf_iff_prefix.mpr (List.prefix_append _ _)
  exact resolveConds_pos provided '\x7b'
    (('\x7b' :: '#' :: 'i' :: 'f' :: ' ' :: []) ++ (n.data ++
      ('\x7d' :: '\x7d' :: (body ++ (closeIfTag ++ post))))) n body post hp hparse

/-- C5: a conditional block keeps its body verbatim (delimiters removed)
exactly when the block's argument has a provided, non-empty value, and the
whole block vanishes otherwise (general statement over any prefix without
braces, any name without closing braces, and any body without opening
braces); in particular the two spec examples render to `Hi Sam` and
`Hi Sam!!!`. -/
theorem C5_conditional_truthiness :
    (∀ (provided : List (String × String)) (pre : List Char) (n : String)
        (body post : List Char),
      (∀ c ∈ pre, c ≠ '\x7b') → (∀ c ∈ n.data, c ≠ '\x7d') →
      (∀ c ∈ body, c ≠ '\x7b') →
      resolveConds provided (pre ++ (openIfTag ++ (n.data ++
          ('\x7d' :: '\x7d' :: (body ++ (closeIfTag ++ post)))))) =
        pre ++ ((if truthy provided n then body else []) ++
          resolveConds provided post)) ∧
    render "Hi \x7b\x7bname\x7d\x7d\x7b\x7b#if loud\x7d\x7d!!!\x7b\x7b/if\x7d\x7d"
      [("name", "Sam"), ("loud", "")]
      [("name", ⟨"", true⟩), ("loud", ⟨"", false⟩)] = .ok "Hi Sam" ∧
    render "Hi \x7b\x7bname\x7d\x7d\x7b\x7b#if loud\x7d\x7d!!!\x7b\x7b/if\x7d\x7d"
      [("name", "Sam"), ("loud", "yes")]
      [("name", ⟨"", true⟩), ("loud", ⟨"", false⟩)] = .ok "Hi Sam!!!" :=
  ⟨resolveConds_block, rfl, rfl⟩

/-- Witness for C5's general half: a truthy `loud` keeps the body `!!!`. -/
theorem C5_conditional_truthiness_witness :
    resolveConds [("loud", "yes")]
      (("Hi " : String).data ++ (openIfTag ++ (("loud" : String).data ++
        ('\x7d' :: '\x7d' :: (("!!!" : String).data ++ (closeIfTag ++ ([] : List Char))))))) =
      ("Hi " : String).data ++
        ((if truthy [("loud", "yes")] "loud" then ("!!!" : String).data else []) ++
          resolveConds [("loud", "yes")] []) :=
  C5_conditional_truthiness.1 [("loud", "yes")] ("Hi " : String).data "loud"
    ("!!!" : String).data [] (by decide) (by decide) (by decide)
